import Mathlib

set_option linter.unusedSectionVars false

/-!
Shallow embedding of `src/round-robin-load-balancer.js` (the `nanny`
round-robin TCP load balancer).

The JavaScript object is modelled as a record `LB` of its mutable fields.
Each prototype method becomes a pure function from an `LB` to an `LB`
paired with the list of externally observable side effects (`Output`):
`server.listen`, `server.close`, `workerSupervisor.sendAddress`,
`workerSupervisor.sendError`, `workerSupervisor.handleConnection`
(dispatch), and `setTimeout` (arming the restart timer).

Handlers that `throw` (`handleError` in `standby`, `handleClose` in
`standby`) return `none`.

`W` is the type of worker supervisors (the JS ring stores object
references compared with `===`, modelled by `DecidableEq`); `C` is the
type of connections (opaque payloads).
-/

namespace Nanny

/-- One of `standby`, `starting`, `running`, `stopping` (line 20 of the
source). -/
inductive Phase : Type where
  | standby
  | starting
  | running
  | stopping
  deriving DecidableEq, Repr

/-- Observable side effects of the load balancer on its collaborators:
the OS server socket, the worker supervisors, and the timer subsystem. -/
inductive Output (W C : Type) : Type where
  | listen (port : Nat)
  | closeServer
  | sendAddress (w : W) (port : Nat) (addr : Option Nat)
  | sendError (w : W) (port : Nat) (err : Nat)
  | dispatch (w : W) (port : Nat) (c : C)
  | armTimer (delay : Nat)
  deriving DecidableEq, Repr

/-- Events delivered to the load balancer: its public operations
(`start`, `stop`, `addWorkerSupervisor`, `removeWorkerSupervisor`) and
the server events (`listening` carrying the OS-granted address,
`connection`, `error`, `close`) plus the restart-timer firing. -/
inductive Event (W C : Type) : Type where
  | start
  | stop
  | listening (addr : Nat)
  | connection (c : C)
  | error (err : Nat)
  | close
  | timerFire
  | addWorker (w : W)
  | removeWorker (w : W)
  deriving DecidableEq, Repr

/-- The mutable fields of a `RoundRobinLoadBalancer` (constructor,
lines 11-43).  `restartPending` models a `setTimeout` that has been
armed (line 232) and has not yet fired; the source never calls
`clearTimeout`, and `stop` does not touch this field. -/
structure LB (W C : Type) : Type where
  port : Nat
  restartDelay : Nat
  state : Phase
  nextState : Option Phase
  address : Option Nat
  ring : List W
  queue : List C
  restartPending : Bool
  deriving DecidableEq, Repr

variable {W C : Type} [DecidableEq W] [Inhabited W]

/-- `RoundRobinLoadBalancer.prototype.handleConnection` (lines 202-217):
in `running` with a non-empty ring, `shift` the head worker, `push` it
back, and hand it the connection; otherwise push the connection onto the
queue. -/
def handleConnection (s : LB W C) (c : C) : LB W C × List (Output W C) :=
  if s.state = Phase.running ∧ s.ring.length ≠ 0 then
    let w := s.ring.headI
    ({ s with ring := s.ring.tail ++ [w] }, [Output.dispatch w s.port c])
  else
    ({ s with queue := s.queue ++ [c] }, [])

/-- Iterated `handleConnection` over a list of connections, accumulating
outputs in order.  This is the loop body of
`flushConnectionQueue`'s `forEach` (lines 255-257), and is also used to
state the round-robin dispatch property. -/
def runConnections (s : LB W C) : List C → LB W C × List (Output W C)
  | [] => (s, [])
  | c :: cs =>
    let r1 := handleConnection s c
    let r2 := runConnections r1.1 cs
    (r2.1, r1.2 ++ r2.2)

/-- `RoundRobinLoadBalancer.prototype.flushConnectionQueue`
(lines 250-265): when `running` with a non-empty ring, feed every queued
connection through `handleConnection` in FIFO order, then truncate the
queue (`this.queue.length = 0`). -/
def flushConnectionQueue (s : LB W C) : LB W C × List (Output W C) :=
  if s.state = Phase.running ∧ s.ring.length ≠ 0 then
    let r := runConnections s s.queue
    ({ r.1 with queue := [] }, r.2)
  else
    (s, [])

/-- `RoundRobinLoadBalancer.prototype.start` (lines 106-128): from
`standby`, go to `starting` and ask the OS to listen; from `stopping`,
latch `nextState = 'starting'`; otherwise do nothing. -/
def start (s : LB W C) : LB W C × List (Output W C) :=
  if s.state = Phase.standby then
    ({ s with state := Phase.starting }, [Output.listen s.port])
  else if s.state = Phase.stopping then
    ({ s with nextState := some Phase.starting }, [])
  else
    (s, [])

/-- `RoundRobinLoadBalancer.prototype.stop` (lines 130-150), without the
optional done-callback: from `running`, issue `server.close()` and go to
`stopping`; from `starting`, go to `stopping` (the close is deferred to
the `listening` event); otherwise do nothing. -/
def stop (s : LB W C) : LB W C × List (Output W C) :=
  if s.state = Phase.running ∨ s.state = Phase.starting then
    let os := if s.state = Phase.running then [Output.closeServer] else []
    ({ s with state := Phase.stopping }, os)
  else
    (s, [])

/-- `RoundRobinLoadBalancer.prototype.handleListening` (lines 152-180):
in `starting`, go to `running`, capture the OS-granted address, send it
to every worker in the ring, and flush the queue; in `stopping`, issue
the deferred `server.close()`; otherwise ignore the event. -/
def handleListening (s : LB W C) (a : Nat) : LB W C × List (Output W C) :=
  if s.state = Phase.starting then
    let s1 : LB W C := { s with state := Phase.running, address := some a }
    let broadcast := s1.ring.map (fun w => Output.sendAddress w s1.port s1.address)
    let r := flushConnectionQueue s1
    (r.1, broadcast ++ r.2)
  else if s.state = Phase.stopping then
    (s, [Output.closeServer])
  else
    (s, [])

/-- `RoundRobinLoadBalancer.prototype.handleError` (lines 182-200): in
`running` or `stopping`, send the error to every worker in the ring and
call `stop`; in `starting`, just call `stop`; in `standby`, `throw`
(modelled as `none`). -/
def handleError (s : LB W C) (err : Nat) : Option (LB W C × List (Output W C)) :=
  if s.state = Phase.running ∨ s.state = Phase.stopping then
    let errs := s.ring.map (fun w => Output.sendError w s.port err)
    let r := stop s
    some (r.1, errs ++ r.2)
  else if s.state = Phase.starting then
    some (stop s)
  else
    none

/-- `RoundRobinLoadBalancer.prototype.handleClose` (lines 219-238): in
`stopping` or `running`, go to `standby`; if `nextState === 'starting'`,
arm the restart timer (`setTimeout(this.handleRestartTimeout,
this.restartDelay)`) and clear `nextState`; in `standby`, `throw`
(assertion failure, modelled as `none`). -/
def handleClose (s : LB W C) : Option (LB W C × List (Output W C)) :=
  if s.state = Phase.stopping ∨ s.state = Phase.running then
    let s1 : LB W C := { s with state := Phase.standby }
    if s1.nextState = some Phase.starting then
      some ({ s1 with nextState := none, restartPending := true },
            [Output.armTimer s.restartDelay])
    else
      some (s1, [])
  else
    none

/-- `RoundRobinLoadBalancer.prototype.handleRestartTimeout`
(lines 240-242): just calls `start`. -/
def handleRestartTimeout (s : LB W C) : LB W C × List (Output W C) :=
  start s

/-- `RoundRobinLoadBalancer.prototype.addWorkerSupervisor` (lines 69-80):
unconditionally push the worker onto the ring; if `running`, send it the
current address; then flush the connection queue. -/
def addWorkerSupervisor (s : LB W C) (w : W) : LB W C × List (Output W C) :=
  let s1 : LB W C := { s with ring := s.ring ++ [w] }
  let os1 := if s1.state = Phase.running then
      [Output.sendAddress w s1.port s1.address]
    else
      []
  let r := flushConnectionQueue s1
  (r.1, os1 ++ r.2)

/-- `RoundRobinLoadBalancer.prototype.removeWorkerSupervisor`
(lines 82-90): `indexOf` + `splice(index, 1)`, i.e. remove the first
occurrence if present, silently tolerate absence. -/
def removeWorkerSupervisor (s : LB W C) (w : W) : LB W C × List (Output W C) :=
  ({ s with ring := s.ring.erase w }, [])

/-- The field initialisation part of the constructor (lines 11-43): the
state before the final `this.start()` call on line 53. -/
def initLB (p rd : Nat) : LB W C :=
  { port := p
    restartDelay := rd
    state := Phase.standby
    nextState := none
    address := none
    ring := []
    queue := []
    restartPending := false }

/-- The `RoundRobinLoadBalancer` constructor (lines 7-54): initialise
the fields, then call `this.start()`. -/
def RoundRobinLoadBalancer (p rd : Nat) : LB W C × List (Output W C) :=
  start (initLB p rd)

/-- One event step of the load balancer.  The restart timer can only
fire while it is pending, and firing consumes the one-shot timer. -/
def step (s : LB W C) : Event W C → Option (LB W C × List (Output W C))
  | Event.start => some (start s)
  | Event.stop => some (stop s)
  | Event.listening a => some (handleListening s a)
  | Event.connection c => some (handleConnection s c)
  | Event.error e => handleError s e
  | Event.close => handleClose s
  | Event.timerFire =>
    if s.restartPending then
      some (handleRestartTimeout { s with restartPending := false })
    else
      none
  | Event.addWorker w => some (addWorkerSupervisor s w)
  | Event.removeWorker w => some (removeWorkerSupervisor s w)

/-- Run a list of events from a state, accumulating outputs; `none` as
soon as a step aborts. -/
def run (s : LB W C) : List (Event W C) → Option (LB W C × List (Output W C))
  | [] => some (s, [])
  | e :: es =>
    match step s e with
    | none => none
    | some r1 =>
      match run r1.1 es with
      | none => none
      | some r2 => some (r2.1, r1.2 ++ r2.2)

/-- The worker that the `i`-th connection (0-based) will be dispatched
to by a running balancer whose ring is currently `r`: the head of the
ring after `i` rotations. -/
def ringAt (r : List W) (i : Nat) : W :=
  (r.rotate i).headI

/-- The dispatch outputs produced for connections `cs` arriving at a
running balancer on port `p` whose ring has already been rotated `i`
times away from `r`. -/
def dispatchTraceFrom (r : List W) (p : Nat) (i : Nat) : List C → List (Output W C)
  | [] => []
  | c :: cs => Output.dispatch (ringAt r i) p c :: dispatchTraceFrom r p (i + 1) cs

/-- The dispatch outputs for connections `cs` arriving at a running
balancer with ring `r` on port `p`: the k-th connection (1-based) goes
to the worker at position (k-1) mod |r| in ring order. -/
def dispatchTrace (r : List W) (p : Nat) (cs : List C) : List (Output W C) :=
  dispatchTraceFrom r p 0 cs

/-- Whether an output is a connection dispatch to worker `w`. -/
def isDispatchTo (w : W) : Output W C → Bool
  | Output.dispatch v _ _ => v == w
  | _ => false

/-- How many connections an output list dispatches to worker `w`. -/
def countDispatchTo (os : List (Output W C)) (w : W) : Nat :=
  os.countP (isDispatchTo w)

/-- States observable at some time in the life of some load balancer:
the constructor's result, closed under event steps. -/
inductive Reachable : LB W C → Prop where
  | init (p rd : Nat) : Reachable (RoundRobinLoadBalancer p rd).1
  | next {s t : LB W C} {e : Event W C} {o : List (Output W C)} :
      Reachable s → step s e = some (t, o) → Reachable t

/-- Reachability restricted to runs in which `addWorkerSupervisor` is
only ever called with a worker not currently in the ring (the discipline
the cluster supervisor is meant to follow). -/
inductive ReachableFresh : LB W C → Prop where
  | init (p rd : Nat) : ReachableFresh (RoundRobinLoadBalancer p rd).1
  | next {s t : LB W C} {e : Event W C} {o : List (Output W C)} :
      ReachableFresh s → step s e = some (t, o) →
      (∀ w, e = Event.addWorker w → w ∉ s.ring) → ReachableFresh t

/-! ### Field-preservation helper lemmas -/

theorem handleConnection_state (s : LB W C) (c : C) :
    (handleConnection s c).1.state = s.state := by
  unfold handleConnection
  split <;> rfl

theorem handleConnection_address (s : LB W C) (c : C) :
    (handleConnection s c).1.address = s.address := by
  unfold handleConnection
  split <;> rfl

theorem handleConnection_port (s : LB W C) (c : C) :
    (handleConnection s c).1.port = s.port := by
  unfold handleConnection
  split <;> rfl

theorem handleConnection_pending (s : LB W C) (c : C) :
    (handleConnection s c).1.restartPending = s.restartPending := by
  unfold handleConnection
  split <;> rfl

theorem handleConnection_nextState (s : LB W C) (c : C) :
    (handleConnection s c).1.nextState = s.nextState := by
  unfold handleConnection
  split <;> rfl

theorem handleConnection_ring_perm (s : LB W C) (c : C) :
    (handleConnection s c).1.ring.Perm s.ring := by
  unfold handleConnection
  split
  · rename_i h
    rcases h with ⟨_, hlen⟩
    match hr : s.ring with
    | [] => simp [hr] at hlen
    | w :: rest =>
      simp only [hr, List.headI_cons, List.tail_cons]
      exact List.perm_append_singleton w rest
  · exact List.Perm.refl _

/-- In `running` with a non-empty ring, `handleConnection` dispatches and
leaves the queue alone, and the ring stays non-empty. -/
theorem handleConnection_run (s : LB W C) (c : C)
    (hs : s.state = Phase.running) (hr : s.ring ≠ []) :
    (handleConnection s c).1.queue = s.queue ∧ (handleConnection s c).1.ring ≠ [] := by
  have hlen : s.ring.length ≠ 0 := by
    simpa [List.length_eq_zero] using hr
  unfold handleConnection
  rw [if_pos ⟨hs, hlen⟩]
  refine ⟨rfl, ?_⟩
  simp

theorem runConnections_state (cs : List C) :
    ∀ s : LB W C, (runConnections s cs).1.state = s.state := by
  induction cs with
  | nil => intro s; rfl
  | cons c cs ih =>
    intro s
    simp only [runConnections]
    rw [ih]
    exact handleConnection_state s c

theorem runConnections_address (cs : List C) :
    ∀ s : LB W C, (runConnections s cs).1.address = s.address := by
  induction cs with
  | nil => intro s; rfl
  | cons c cs ih =>
    intro s
    simp only [runConnections]
    rw [ih]
    exact handleConnection_address s c

theorem runConnections_port (cs : List C) :
    ∀ s : LB W C, (runConnections s cs).1.port = s.port := by
  induction cs with
  | nil => intro s; rfl
  | cons c cs ih =>
    intro s
    simp only [runConnections]
    rw [ih]
    exact handleConnection_port s c

theorem runConnections_pending (cs : List C) :
    ∀ s : LB W C, (runConnections s cs).1.restartPending = s.restartPending := by
  induction cs with
  | nil => intro s; rfl
  | cons c cs ih =>
    intro s
    simp only [runConnections]
    rw [ih]
    exact handleConnection_pending s c

theorem runConnections_nextState (cs : List C) :
    ∀ s : LB W C, (runConnections s cs).1.nextState = s.nextState := by
  induction cs with
  | nil => intro s; rfl
  | cons c cs ih =>
    intro s
    simp only [runConnections]
    rw [ih]
    exact handleConnection_nextState s c

theorem runConnections_ring_perm (cs : List C) :
    ∀ s : LB W C, (runConnections s cs).1.ring.Perm s.ring := by
  induction cs with
  | nil => intro s; exact List.Perm.refl _
  | cons c cs ih =>
    intro s
    simp only [runConnections]
    exact (ih (handleConnection s c).1).trans (handleConnection_ring_perm s c)

/-- In `running` with a non-empty ring, iterated dispatch leaves the
queue alone and the ring non-empty. -/
theorem runConnections_run (cs : List C) :
    ∀ s : LB W C, s.state = Phase.running → s.ring ≠ [] →
      (runConnections s cs).1.queue = s.queue ∧ (runConnections s cs).1.ring ≠ [] := by
  induction cs with
  | nil => intro s _ hr; exact ⟨rfl, hr⟩
  | cons c cs ih =>
    intro s hs hr
    obtain ⟨hq1, hr1⟩ := handleConnection_run s c hs hr
    have hs1 : (handleConnection s c).1.state = Phase.running := by
      rw [handleConnection_state]; exact hs
    obtain ⟨hq2, hr2⟩ := ih (handleConnection s c).1 hs1 hr1
    simp only [runConnections]
    exact ⟨hq2.trans hq1, hr2⟩

theorem flush_state (s : LB W C) :
    (flushConnectionQueue s).1.state = s.state := by
  unfold flushConnectionQueue
  split
  · exact runConnections_state s.queue s
  · rfl

theorem flush_address (s : LB W C) :
    (flushConnectionQueue s).1.address = s.address := by
  unfold flushConnectionQueue
  split
  · exact runConnections_address s.queue s
  · rfl

theorem flush_port (s : LB W C) :
    (flushConnectionQueue s).1.port = s.port := by
  unfold flushConnectionQueue
  split
  · exact runConnections_port s.queue s
  · rfl

theorem flush_pending (s : LB W C) :
    (flushConnectionQueue s).1.restartPending = s.restartPending := by
  unfold flushConnectionQueue
  split
  · exact runConnections_pending s.queue s
  · rfl

theorem flush_nextState (s : LB W C) :
    (flushConnectionQueue s).1.nextState = s.nextState := by
  unfold flushConnectionQueue
  split
  · exact runConnections_nextState s.queue s
  · rfl

theorem flush_ring_perm (s : LB W C) :
    (flushConnectionQueue s).1.ring.Perm s.ring := by
  unfold flushConnectionQueue
  split
  · exact runConnections_ring_perm s.queue s
  · exact List.Perm.refl _

/-- `flushConnectionQueue` establishes the backlog-emptiness property
unconditionally: either it drains (queue becomes `[]`), or the state was
not (`running` with a non-empty ring) and stays that way. -/
theorem flush_establishes (s : LB W C) :
    (flushConnectionQueue s).1.state = Phase.running →
    (flushConnectionQueue s).1.ring ≠ [] → (flushConnectionQueue s).1.queue = [] := by
  unfold flushConnectionQueue
  split
  · intro _ _; rfl
  · rename_i h
    intro hs hr
    exact absurd ⟨hs, by simpa [List.length_eq_zero] using hr⟩ h

theorem erase_ne_nil {l : List W} {w : W} (h : l.erase w ≠ []) : l ≠ [] := by
  intro hl
  rw [hl] at h
  exact h rfl

theorem start_ring (s : LB W C) : (start s).1.ring = s.ring := by
  unfold start
  split_ifs <;> rfl

theorem start_queue (s : LB W C) : (start s).1.queue = s.queue := by
  unfold start
  split_ifs <;> rfl

theorem start_address (s : LB W C) : (start s).1.address = s.address := by
  unfold start
  split_ifs <;> rfl

theorem start_state (s : LB W C) :
    (start s).1.state = Phase.starting ∨ (start s).1.state = s.state := by
  unfold start
  split_ifs
  · exact Or.inl rfl
  · exact Or.inr rfl
  · exact Or.inr rfl

theorem stop_ring (s : LB W C) : (stop s).1.ring = s.ring := by
  unfold stop
  split_ifs <;> rfl

theorem stop_queue (s : LB W C) : (stop s).1.queue = s.queue := by
  unfold stop
  split_ifs <;> rfl

theorem stop_address (s : LB W C) : (stop s).1.address = s.address := by
  unfold stop
  split_ifs <;> rfl

theorem stop_state (s : LB W C) :
    (stop s).1.state = Phase.stopping ∨ (stop s).1.state = s.state := by
  unfold stop
  split_ifs
  · exact Or.inl rfl
  · exact Or.inl rfl
  · exact Or.inr rfl

theorem handleListening_ring_perm (s : LB W C) (a : Nat) :
    (handleListening s a).1.ring.Perm s.ring := by
  unfold handleListening
  split_ifs
  · exact flush_ring_perm _
  · exact List.Perm.refl _
  · exact List.Perm.refl _

/-- Either `handleListening` enters `running` having just captured the
OS-granted address, or it changes neither state nor address nor queue
emptiness structure. -/
theorem handleListening_cases (s : LB W C) (a : Nat) :
    ((handleListening s a).1.address = some a ∧
      ((handleListening s a).1.state = Phase.running →
        (handleListening s a).1.ring ≠ [] → (handleListening s a).1.queue = [])) ∨
    ((handleListening s a).1.state = s.state ∧
      (handleListening s a).1.address = s.address ∧
      (handleListening s a).1.ring = s.ring ∧
      (handleListening s a).1.queue = s.queue) := by
  unfold handleListening
  split_ifs
  · refine Or.inl ⟨?_, ?_⟩
    · rw [flush_address]
    · exact flush_establishes _
  · exact Or.inr ⟨rfl, rfl, rfl, rfl⟩
  · exact Or.inr ⟨rfl, rfl, rfl, rfl⟩

theorem handleError_parts {s : LB W C} {err : Nat} {t : LB W C} {o : List (Output W C)}
    (h : handleError s err = some (t, o)) :
    t.ring = s.ring ∧ t.queue = s.queue ∧ t.address = s.address ∧
      (t.state = Phase.stopping ∨ t.state = s.state) := by
  unfold handleError at h
  split_ifs at h
  · simp only [Option.some_inj, Prod.mk.injEq] at h
    rcases h with ⟨h1, -⟩
    rw [← h1]
    exact ⟨stop_ring s, stop_queue s, stop_address s, stop_state s⟩
  · simp only [Option.some_inj] at h
    rw [show t = (stop s).1 by rw [h]]
    exact ⟨stop_ring s, stop_queue s, stop_address s, stop_state s⟩

theorem handleClose_parts {s : LB W C} {t : LB W C} {o : List (Output W C)}
    (h : handleClose s = some (t, o)) :
    t.ring = s.ring ∧ t.queue = s.queue ∧ t.address = s.address ∧
      t.state = Phase.standby := by
  unfold handleClose at h
  simp only [] at h
  split_ifs at h
  · simp only [Option.some_inj, Prod.mk.injEq] at h
    rcases h with ⟨h1, -⟩
    rw [← h1]
    exact ⟨rfl, rfl, rfl, rfl⟩
  · simp only [Option.some_inj, Prod.mk.injEq] at h
    rcases h with ⟨h1, -⟩
    rw [← h1]
    exact ⟨rfl, rfl, rfl, rfl⟩

theorem addWorker_state (s : LB W C) (w : W) :
    (addWorkerSupervisor s w).1.state = s.state := by
  unfold addWorkerSupervisor
  exact flush_state _

theorem addWorker_address (s : LB W C) (w : W) :
    (addWorkerSupervisor s w).1.address = s.address := by
  unfold addWorkerSupervisor
  exact flush_address _

theorem addWorker_ring_perm (s : LB W C) (w : W) :
    (addWorkerSupervisor s w).1.ring.Perm (s.ring ++ [w]) := by
  unfold addWorkerSupervisor
  exact flush_ring_perm _

theorem addWorker_establishes (s : LB W C) (w : W) :
    (addWorkerSupervisor s w).1.state = Phase.running →
    (addWorkerSupervisor s w).1.ring ≠ [] → (addWorkerSupervisor s w).1.queue = [] := by
  unfold addWorkerSupervisor
  exact flush_establishes _

theorem handleListening_establishes (s : LB W C) (a : Nat)
    (hinv : s.state = Phase.running → s.ring ≠ [] → s.queue = []) :
    (handleListening s a).1.state = Phase.running →
    (handleListening s a).1.ring ≠ [] → (handleListening s a).1.queue = [] := by
  rcases handleListening_cases s a with ⟨_, h⟩ | ⟨hst, _, hr, hq⟩
  · exact h
  · intro h1 h2
    rw [hq]
    exact hinv (hst ▸ h1) (hr ▸ h2)

theorem fst_of_some {A B : Type} {x : A × B} {t : A} {o : B}
    (h : some x = some (t, o)) : t = x.1 := by
  rw [Option.some_inj] at h
  rw [h]

/-- One event step preserves backlog emptiness (`state = running` and
non-empty ring imply empty queue). -/
theorem inv4_step {s t : LB W C} {e : Event W C} {o : List (Output W C)}
    (h : step s e = some (t, o))
    (hinv : s.state = Phase.running → s.ring ≠ [] → s.queue = []) :
    t.state = Phase.running → t.ring ≠ [] → t.queue = [] := by
  cases e with
  | start =>
    simp only [step] at h
    rw [fst_of_some h, start_queue, start_ring]
    intro h1 h2
    rcases start_state s with h3 | h3
    · exact Phase.noConfusion (h3.symm.trans h1)
    · exact hinv (h3.symm.trans h1) h2
  | stop =>
    simp only [step] at h
    rw [fst_of_some h, stop_queue, stop_ring]
    intro h1 h2
    rcases stop_state s with h3 | h3
    · exact Phase.noConfusion (h3.symm.trans h1)
    · exact hinv (h3.symm.trans h1) h2
  | listening a =>
    simp only [step] at h
    rw [fst_of_some h]
    exact handleListening_establishes s a hinv
  | connection c =>
    simp only [step] at h
    rw [fst_of_some h]
    by_cases hc : s.state = Phase.running ∧ s.ring.length ≠ 0
    · intro _ _
      have hq := (handleConnection_run s c hc.1 (by simpa [List.length_eq_zero] using hc.2)).1
      rw [hq]
      exact hinv hc.1 (by simpa [List.length_eq_zero] using hc.2)
    · unfold handleConnection
      rw [if_neg hc]
      intro h1 h2
      exact absurd ⟨h1, by simpa [List.length_eq_zero] using h2⟩ hc
  | error err =>
    simp only [step] at h
    obtain ⟨hring, hqueue, -, hstate⟩ := handleError_parts h
    rw [hqueue, hring]
    intro h1 h2
    rcases hstate with h3 | h3
    · exact Phase.noConfusion (h3.symm.trans h1)
    · exact hinv (h3.symm.trans h1) h2
  | close =>
    simp only [step] at h
    obtain ⟨-, -, -, hstate⟩ := handleClose_parts h
    intro h1 _
    exact Phase.noConfusion (hstate.symm.trans h1)
  | timerFire =>
    simp only [step] at h
    split_ifs at h
    rw [fst_of_some h]
    unfold handleRestartTimeout
    rw [start_queue, start_ring]
    intro h1 h2
    rcases start_state ({ s with restartPending := false } : LB W C) with h3 | h3
    · exact Phase.noConfusion (h3.symm.trans h1)
    · exact hinv (h3.symm.trans h1) h2
  | addWorker w =>
    simp only [step] at h
    rw [fst_of_some h]
    exact addWorker_establishes s w
  | removeWorker w =>
    simp only [step] at h
    rw [fst_of_some h]
    intro h1 h2
    exact hinv h1 (erase_ne_nil h2)

/-- One event step preserves the property that a `running` balancer has
a captured (non-null) address. -/
theorem inv2_step {s t : LB W C} {e : Event W C} {o : List (Output W C)}
    (h : step s e = some (t, o))
    (hinv : s.state = Phase.running → s.address ≠ none) :
    t.state = Phase.running → t.address ≠ none := by
  cases e with
  | start =>
    simp only [step] at h
    rw [fst_of_some h, start_address]
    intro h1
    rcases start_state s with h3 | h3
    · exact Phase.noConfusion (h3.symm.trans h1)
    · exact hinv (h3.symm.trans h1)
  | stop =>
    simp only [step] at h
    rw [fst_of_some h, stop_address]
    intro h1
    rcases stop_state s with h3 | h3
    · exact Phase.noConfusion (h3.symm.trans h1)
    · exact hinv (h3.symm.trans h1)
  | listening a =>
    simp only [step] at h
    rw [fst_of_some h]
    rcases handleListening_cases s a with ⟨haddr, -⟩ | ⟨hst, haddr, -, -⟩
    · intro _
      rw [haddr]
      exact Option.some_ne_none a
    · intro h1
      rw [haddr]
      exact hinv (hst.symm.trans h1)
  | connection c =>
    simp only [step] at h
    rw [fst_of_some h, handleConnection_address, handleConnection_state]
    exact hinv
  | error err =>
    simp only [step] at h
    obtain ⟨-, -, haddr, hstate⟩ := handleError_parts h
    rw [haddr]
    intro h1
    rcases hstate with h3 | h3
    · exact Phase.noConfusion (h3.symm.trans h1)
    · exact hinv (h3.symm.trans h1)
  | close =>
    simp only [step] at h
    obtain ⟨-, -, -, hstate⟩ := handleClose_parts h
    intro h1
    exact Phase.noConfusion (hstate.symm.trans h1)
  | timerFire =>
    simp only [step] at h
    split_ifs at h
    rw [fst_of_some h]
    unfold handleRestartTimeout
    rw [start_address]
    intro h1
    rcases start_state ({ s with restartPending := false } : LB W C) with h3 | h3
    · exact Phase.noConfusion (h3.symm.trans h1)
    · exact hinv (h3.symm.trans h1)
  | addWorker w =>
    simp only [step] at h
    rw [fst_of_some h, addWorker_address, addWorker_state]
    exact hinv
  | removeWorker w =>
    simp only [step] at h
    rw [fst_of_some h]
    exact hinv

/-- One event step preserves ring uniqueness, provided any
`addWorkerSupervisor` in the step is for a worker not already present. -/
theorem nodup_step {s t : LB W C} {e : Event W C} {o : List (Output W C)}
    (h : step s e = some (t, o))
    (hfresh : ∀ w, e = Event.addWorker w → w ∉ s.ring)
    (hnd : s.ring.Nodup) : t.ring.Nodup := by
  cases e with
  | start =>
    simp only [step] at h
    rw [fst_of_some h, start_ring]
    exact hnd
  | stop =>
    simp only [step] at h
    rw [fst_of_some h, stop_ring]
    exact hnd
  | listening a =>
    simp only [step] at h
    rw [fst_of_some h]
    exact (handleListening_ring_perm s a).nodup_iff.mpr hnd
  | connection c =>
    simp only [step] at h
    rw [fst_of_some h]
    exact (handleConnection_ring_perm s c).nodup_iff.mpr hnd
  | error err =>
    simp only [step] at h
    obtain ⟨hring, -, -, -⟩ := handleError_parts h
    rw [hring]
    exact hnd
  | close =>
    simp only [step] at h
    obtain ⟨hring, -, -, -⟩ := handleClose_parts h
    rw [hring]
    exact hnd
  | timerFire =>
    simp only [step] at h
    split_ifs at h
    rw [fst_of_some h]
    unfold handleRestartTimeout
    rw [start_ring]
    exact hnd
  | addWorker w =>
    simp only [step] at h
    rw [fst_of_some h]
    refine (addWorker_ring_perm s w).nodup_iff.mpr ?_
    refine (List.perm_append_singleton w s.ring).nodup_iff.mpr ?_
    exact List.nodup_cons.mpr ⟨hfresh w rfl, hnd⟩
  | removeWorker w =>
    simp only [step] at h
    rw [fst_of_some h]
    exact hnd.erase w

/-! ### Claim theorems -/

/-- C6: `start()` transition table and idempotence — from `standby` the
load balancer goes to `starting` and requests an OS listen; from
`stopping` it only latches `nextState = 'starting'`; from `starting` or
`running` it changes nothing and requests no second listen. -/
theorem C6_start_transition_table (s : LB W C) :
    (s.state = Phase.standby →
      start s = ({ s with state := Phase.starting }, [Output.listen s.port])) ∧
    (s.state = Phase.stopping →
      start s = ({ s with nextState := some Phase.starting }, [])) ∧
    (s.state = Phase.starting ∨ s.state = Phase.running → start s = (s, [])) := by
  refine ⟨fun h => ?_, fun h => ?_, fun h => ?_⟩
  · simp [start, h]
  · simp [start, h]
  · rcases h with h | h <;> simp [start, h]

/-- Witness for C6: starting a freshly initialised (pre-`start`)
balancer on port 3 moves it from `standby` to `starting` and requests a
listen. -/
theorem C6_start_transition_table_witness :
    start (initLB 3 0 : LB Nat Nat) =
      ({ (initLB 3 0 : LB Nat Nat) with state := Phase.starting }, [Output.listen 3]) :=
  (C6_start_transition_table (initLB 3 0 : LB Nat Nat)).1 rfl

/-- C8: `ERROR` event semantics — in `running`, every ring entry is sent
`sendError(port, err)` (in ring order, once per entry) and the balancer
stops itself, closing the server and entering `stopping`; in `starting`
it stops itself without notifying any worker; in `standby` the error is
thrown (the handler aborts). -/
theorem C8_handleError_semantics (s : LB W C) (err : Nat) :
    (s.state = Phase.running →
      handleError s err = some ({ s with state := Phase.stopping },
        s.ring.map (fun w => Output.sendError w s.port err) ++ [Output.closeServer])) ∧
    (s.state = Phase.starting →
      handleError s err = some ({ s with state := Phase.stopping }, [])) ∧
    (s.state = Phase.standby → handleError s err = none) := by
  refine ⟨fun h => ?_, fun h => ?_, fun h => ?_⟩ <;> simp [handleError, stop, h]

/-- Witness for C8: an error in `running` with ring `[1, 2]` on port 9
produces exactly one `sendError` per worker followed by the server
close, and the state becomes `stopping`. -/
theorem C8_handleError_semantics_witness :
    handleError ({ (initLB 9 0 : LB Nat Nat) with state := Phase.running, ring := [1, 2] } : LB Nat Nat) 77
      = some ({ (initLB 9 0 : LB Nat Nat) with state := Phase.stopping, ring := [1, 2] },
              [Output.sendError 1 9 77, Output.sendError 2 9 77, Output.closeServer]) :=
  (C8_handleError_semantics
    ({ (initLB 9 0 : LB Nat Nat) with state := Phase.running, ring := [1, 2] } : LB Nat Nat) 77).1 rfl

/-- C9: restart latching — `start()` in `stopping` latches
`nextState = 'starting'`; the subsequent `CLOSE` puts the balancer in
`standby`, arms a one-shot `restartDelay` timer and clears `nextState`;
when the timer fires, `start()` runs and the balancer re-enters
`starting`, requesting a new listen, with no further explicit `start()`. -/
theorem C9_restart_latching (s : LB W C) (hs : s.state = Phase.stopping) :
    start s = ({ s with nextState := some Phase.starting }, []) ∧
    handleClose { s with nextState := some Phase.starting }
      = some ({ s with state := Phase.standby, nextState := none, restartPending := true },
              [Output.armTimer s.restartDelay]) ∧
    step ({ s with state := Phase.standby, nextState := none, restartPending := true })
        Event.timerFire
      = some ({ s with state := Phase.starting, nextState := none, restartPending := false },
              [Output.listen s.port]) ∧
    (∀ a, (handleListening
        ({ s with state := Phase.starting, nextState := none, restartPending := false })
        a).1.state = Phase.running) := by
  refine ⟨?_, ?_, ?_, ?_⟩
  · simp [start, hs]
  · simp [handleClose, hs]
  · simp [step, handleRestartTimeout, start]
  · intro a
    unfold handleListening
    rw [if_pos rfl]
    dsimp only
    rw [flush_state]

/-- Witness for C9: the latched close on a concrete `stopping` balancer
(port 2, restart delay 6) arms a 6 ms timer, and the timer fire
re-enters `starting` with a fresh listen request. -/
theorem C9_restart_latching_witness :
    handleClose ({ (initLB 2 6 : LB Nat Nat) with
                   state := Phase.stopping, nextState := some Phase.starting } : LB Nat Nat)
      = some ({ (initLB 2 6 : LB Nat Nat) with state := Phase.standby, restartPending := true },
              [Output.armTimer 6]) ∧
    step ({ (initLB 2 6 : LB Nat Nat) with state := Phase.standby, restartPending := true } : LB Nat Nat)
        Event.timerFire
      = some ({ (initLB 2 6 : LB Nat Nat) with state := Phase.starting }, [Output.listen 2]) :=
  ⟨(C9_restart_latching ({ (initLB 2 6 : LB Nat Nat) with state := Phase.stopping } : LB Nat Nat) rfl).2.1,
   (C9_restart_latching ({ (initLB 2 6 : LB Nat Nat) with state := Phase.stopping } : LB Nat Nat) rfl).2.2.1⟩

/-- C10: the constructor auto-starts — after field initialisation the
state is `standby`, but `RoundRobinLoadBalancer` ends by calling
`start()`, so every freshly constructed balancer is already in
`starting` with one OS listen requested; it is never observable in
`standby`. -/
theorem C10_constructor_auto_starts (p rd : Nat) :
    (initLB p rd : LB W C).state = Phase.standby ∧
    (RoundRobinLoadBalancer p rd : LB W C × List (Output W C))
      = ({ (initLB p rd : LB W C) with state := Phase.starting }, [Output.listen p]) ∧
    (RoundRobinLoadBalancer p rd : LB W C × List (Output W C)).1.state = Phase.starting :=
  ⟨rfl, rfl, rfl⟩

/-- C7: stop during starting — from construction (`standby` →
`starting`), a `stop()` moves the balancer to `stopping` with no close
issued; the deferred `server.close()` is issued exactly once, on the
`LISTENING` event; the final `CLOSE` lands the balancer in `standby`.
Connections received in between are queued, never dispatched: the whole
run emits exactly `[closeServer]` and no `dispatch`. -/
theorem C7_stop_during_starting (p rd a : Nat) (c c2 : C) :
    (initLB p rd : LB W C).state = Phase.standby ∧
    (RoundRobinLoadBalancer p rd : LB W C × List (Output W C)).1.state = Phase.starting ∧
    (RoundRobinLoadBalancer p rd : LB W C × List (Output W C)).2 = [Output.listen p] ∧
    stop (RoundRobinLoadBalancer p rd : LB W C × List (Output W C)).1
      = ({ (initLB p rd : LB W C) with state := Phase.stopping }, []) ∧
    run (RoundRobinLoadBalancer p rd : LB W C × List (Output W C)).1
        [Event.stop, Event.connection c, Event.listening a, Event.connection c2, Event.close]
      = some ({ (initLB p rd : LB W C) with state := Phase.standby, queue := [c, c2] },
              [Output.closeServer]) :=
  ⟨rfl, rfl, rfl, rfl, rfl⟩

/-- C1 counterexample: the claim as stated is false — `addWorkerSupervisor`
pushes unconditionally (no duplicate check), so adding worker `7` twice
with no intervening removal yields a reachable state whose ring is
`[7, 7]`: worker `7` occurs twice, not at most once. -/
theorem C1_counterexample_double_add :
    Reachable ((addWorkerSupervisor
        ((addWorkerSupervisor
          (RoundRobinLoadBalancer 0 0 : LB Nat Nat × List (Output Nat Nat)).1 7).1) 7).1) ∧
    ((addWorkerSupervisor
        ((addWorkerSupervisor
          (RoundRobinLoadBalancer 0 0 : LB Nat Nat × List (Output Nat Nat)).1 7).1) 7).1).ring
      = [7, 7] ∧
    ¬ ((addWorkerSupervisor
        ((addWorkerSupervisor
          (RoundRobinLoadBalancer 0 0 : LB Nat Nat × List (Output Nat Nat)).1 7).1) 7).1).ring.count 7
      ≤ 1 := by
  refine ⟨?_, rfl, by decide⟩
  exact Reachable.next
    (Reachable.next (Reachable.init 0 0) (e := Event.addWorker 7) rfl)
    (e := Event.addWorker 7) rfl

/-- C1 (amended): under the discipline that `addWorkerSupervisor` is
never called with a worker already in the ring, no worker ever appears
more than once in the ring — all other operations (rotation on dispatch,
queue flushes, removal, lifecycle transitions) preserve uniqueness. -/
theorem C1_ring_nodup_of_fresh_adds {s : LB W C} (h : ReachableFresh s) :
    s.ring.Nodup := by
  induction h with
  | init p rd => exact List.nodup_nil
  | next hre hstep hfresh ih => exact nodup_step hstep hfresh ih

/-- Witness for C1: a freshly constructed balancer that receives one
fresh worker has a duplicate-free ring. -/
theorem C1_ring_nodup_of_fresh_adds_witness :
    ((addWorkerSupervisor
        (RoundRobinLoadBalancer 1 0 : LB Nat Nat × List (Output Nat Nat)).1 3).1).ring.Nodup :=
  C1_ring_nodup_of_fresh_adds
    (ReachableFresh.next (ReachableFresh.init 1 0) (e := Event.addWorker 3) rfl
      (fun w hw => by simp [RoundRobinLoadBalancer, start, initLB]))

/-- C2 counterexample: the claimed "address non-null iff state is
`running` or `stopping`" is false — `stop()` during `starting` reaches
`stopping` while `address` is still `null` (the source also never
resets `address` to `null`, so it stays non-null in `standby` after a
close). -/
theorem C2_counterexample_stopping_null_address :
    Reachable ((stop (RoundRobinLoadBalancer 0 0 : LB Nat Nat × List (Output Nat Nat)).1).1) ∧
    ((stop (RoundRobinLoadBalancer 0 0 : LB Nat Nat × List (Output Nat Nat)).1).1).state
      = Phase.stopping ∧
    ((stop (RoundRobinLoadBalancer 0 0 : LB Nat Nat × List (Output Nat Nat)).1).1).address
      = none ∧
    ¬ (((stop (RoundRobinLoadBalancer 0 0 : LB Nat Nat × List (Output Nat Nat)).1).1).address
          ≠ none
        ↔ (((stop (RoundRobinLoadBalancer 0 0 : LB Nat Nat × List (Output Nat Nat)).1).1).state
              = Phase.running
           ∨ ((stop (RoundRobinLoadBalancer 0 0 : LB Nat Nat × List (Output Nat Nat)).1).1).state
              = Phase.stopping)) := by
  refine ⟨?_, rfl, rfl, by decide⟩
  exact Reachable.next (Reachable.init 0 0) (e := Event.stop) rfl

/-- C2 (amended): after every event, `address` is non-null whenever the
state is `running` (the address is captured on entry to `running`).
The spec's full "iff" fails in both directions: `stopping` can have a
null address (stop during starting) and `standby`/`starting` can have a
non-null one (the address is never cleared after a close). -/
theorem C2_running_has_address {s : LB W C} (h : Reachable s)
    (hs : s.state = Phase.running) : s.address ≠ none := by
  suffices hinv : s.state = Phase.running → s.address ≠ none from hinv hs
  clear hs
  induction h with
  | init p rd =>
    intro h1
    exact Phase.noConfusion h1
  | next hre hstep ih => exact inv2_step hstep ih

/-- Witness for C2: once the OS grants address 4, the running balancer
has a non-null address. -/
theorem C2_running_has_address_witness :
    ((handleListening
        (RoundRobinLoadBalancer 1 0 : LB Nat Nat × List (Output Nat Nat)).1 4).1).address
      ≠ none :=
  C2_running_has_address
    (Reachable.next (Reachable.init 1 0) (e := Event.listening 4) rfl) rfl

/-- C4: backlog emptiness — in every reachable state (i.e. immediately
after any event in any event sequence from construction), if the
balancer is `running` and the ring is non-empty then the connection
queue is empty: entering `running` and `addWorkerSupervisor` both flush,
dispatch never queues while running with workers, and removal never
repopulates the queue. -/
theorem C4_backlog_emptiness {s : LB W C} (h : Reachable s)
    (hs : s.state = Phase.running) (hr : s.ring ≠ []) : s.queue = [] := by
  suffices hinv : s.state = Phase.running → s.ring ≠ [] → s.queue = [] from hinv hs hr
  clear hs hr
  induction h with
  | init p rd => intro _ _; rfl
  | next hre hstep ih => exact inv4_step hstep ih

/-- Witness for C4: construct, add worker 5, then the OS grants address
9 — the balancer is `running` with ring `[5]` and an empty queue. -/
theorem C4_backlog_emptiness_witness :
    ((handleListening
        ((addWorkerSupervisor
          (RoundRobinLoadBalancer 0 0 : LB Nat Nat × List (Output Nat Nat)).1 5).1) 9).1).queue
      = [] := by
  refine C4_backlog_emptiness ?_ rfl (by decide)
  exact Reachable.next
    (Reachable.next (Reachable.init 0 0) (e := Event.addWorker 5) rfl)
    (e := Event.listening 9) rfl

/-- C3 (code evidence): there is no `clearTimeout` in the source, so a
`stop()` issued after the restart timer was armed does not cancel it.
From a balancer on port 4 with restart delay 7: listen granted, `stop`,
`start` (latches restart), `close` (arms the timer), then another
`stop()` — the timer is still pending — and when it fires the balancer
restarts (`starting`, with a second listen request), contradicting the
claimed cancellation. -/
theorem C3_stop_does_not_cancel_restart_timer :
    run (RoundRobinLoadBalancer 4 7 : LB Nat Nat × List (Output Nat Nat)).1
        [Event.listening 9, Event.stop, Event.start, Event.close, Event.stop]
      = some ({ (initLB 4 7 : LB Nat Nat) with
                state := Phase.standby, address := some 9, restartPending := true },
              [Output.closeServer, Output.armTimer 7]) ∧
    run (RoundRobinLoadBalancer 4 7 : LB Nat Nat × List (Output Nat Nat)).1
        [Event.listening 9, Event.stop, Event.start, Event.close, Event.stop, Event.timerFire]
      = some ({ (initLB 4 7 : LB Nat Nat) with state := Phase.starting, address := some 9 },
              [Output.closeServer, Output.armTimer 7, Output.listen 4]) :=
  ⟨rfl, rfl⟩

/-! ### Round-robin dispatch (C5) -/

theorem rot1 (l : List W) (h : l ≠ []) : l.tail ++ [l.headI] = l.rotate 1 := by
  cases l with
  | nil => exact absurd rfl h
  | cons a t =>
    simp only [List.tail_cons, List.headI_cons]
    rw [List.rotate_cons_succ, List.rotate_zero]

theorem handleConnection_rot (r : List W) (hr : r ≠ []) (s : LB W C) (c : C) (i : Nat)
    (hs : s.state = Phase.running) (hring : s.ring = r.rotate i) :
    handleConnection s c
      = ({ s with ring := r.rotate (i + 1) },
         [Output.dispatch (ringAt r i) s.port c]) := by
  have hne : s.ring ≠ [] := by
    rw [hring]
    simpa [List.rotate_eq_nil_iff] using hr
  have hlen : s.ring.length ≠ 0 := by simpa [List.length_eq_zero] using hne
  have h1 : s.ring.tail ++ [s.ring.headI] = r.rotate (i + 1) := by
    rw [hring, rot1 (r.rotate i) (by simpa [List.rotate_eq_nil_iff] using hr),
        List.rotate_rotate]
  have h2 : s.ring.headI = ringAt r i := by
    rw [hring]
    rfl
  unfold handleConnection
  rw [if_pos ⟨hs, hlen⟩]
  simp only []
  rw [h1, h2]

theorem runConnections_rot (r : List W) (hr : r ≠ []) :
    ∀ (cs : List C) (s : LB W C) (i : Nat),
      s.state = Phase.running → s.ring = r.rotate i →
      runConnections s cs
        = ({ s with ring := r.rotate (i + cs.length) },
           dispatchTraceFrom r s.port i cs) := by
  intro cs
  induction cs with
  | nil =>
    intro s i hs hring
    simp only [runConnections, dispatchTraceFrom, List.length_nil, Nat.add_zero]
    rw [← hring]
  | cons c cs ih =>
    intro s i hs hring
    simp only [runConnections]
    rw [handleConnection_rot r hr s c i hs hring]
    dsimp only
    rw [ih ({ s with ring := r.rotate (i + 1) }) (i + 1) hs rfl]
    have harith : i + 1 + cs.length = i + (cs.length + 1) := by omega
    rw [harith]
    rfl

theorem countDispatchTo_traceFrom (r : List W) (p : Nat) (w : W) :
    ∀ (cs : List C) (i : Nat),
      countDispatchTo (dispatchTraceFrom r p i cs) w
        = (List.range cs.length).countP (fun k => ringAt r (i + k) == w) := by
  intro cs
  induction cs with
  | nil => intro i; rfl
  | cons c cs ih =>
    intro i
    simp only [dispatchTraceFrom, countDispatchTo, List.countP_cons, List.length_cons]
    rw [show List.countP (isDispatchTo w) (dispatchTraceFrom r p (i + 1) cs)
          = List.countP (fun k => ringAt r (i + 1 + k) == w) (List.range cs.length)
        from ih (i + 1)]
    rw [List.range_succ_eq_map, List.countP_cons, List.countP_map]
    have hpt : (List.range cs.length).countP
          ((fun k => ringAt r (i + k) == w) ∘ (· + 1))
        = (List.range cs.length).countP (fun k => ringAt r (i + 1 + k) == w) := by
      refine List.countP_congr ?_
      intro k _
      simp only [Function.comp]
      have : i + (k + 1) = i + 1 + k := by omega
      rw [this]
    rw [hpt]
    have hhead : (isDispatchTo w (Output.dispatch (ringAt r i) p c) : Bool)
        = (ringAt r (i + 0) == w) := by
      simp [isDispatchTo]
    rw [hhead]

theorem headI_eq_get (l : List W) (hp : 0 < l.length) : l.headI = l.get ⟨0, hp⟩ := by
  cases l with
  | nil => simp at hp
  | cons a t => rfl

theorem ringAt_eq_get (r : List W) (hr : r ≠ []) (k : Nat) :
    ringAt r k = r.get ⟨k % r.length, Nat.mod_lt k (List.length_pos.mpr hr)⟩ := by
  have hp : 0 < (r.rotate k).length := by
    rw [List.length_rotate]
    exact List.length_pos.mpr hr
  unfold ringAt
  rw [headI_eq_get (r.rotate k) hp, List.get_rotate]
  congr 1
  simp

theorem countP_range_mod (n j : Nat) (hn : 0 < n) (hj : j < n) :
    ∀ m, (List.range m).countP (fun k => decide (k % n = j))
      = m / n + (if j < m % n then 1 else 0) := by
  intro m
  induction m with
  | zero => simp
  | succ m ih =>
    rw [List.range_succ, List.countP_append, ih]
    have hmod : m % n < n := Nat.mod_lt m hn
    have hdm := Nat.div_add_mod m n
    by_cases hv : m % n + 1 = n
    · have e2 : m + 1 = n * (m / n + 1) := by rw [Nat.mul_succ]; omega
      have e3 : (m + 1) % n = 0 := by rw [e2]; exact Nat.mul_mod_right n _
      have e4 : (m + 1) / n = m / n + 1 := by rw [e2]; exact Nat.mul_div_cancel_left _ hn
      rw [e3, e4]
      simp only [List.countP_cons, List.countP_nil, decide_eq_true_eq]
      split_ifs <;> omega
    · have e1 : m + 1 = n * (m / n) + (m % n + 1) := by omega
      have e3 : (m + 1) % n = m % n + 1 := by
        rw [e1, Nat.mul_add_mod]
        exact Nat.mod_eq_of_lt (by omega)
      have e5 : (m % n + 1) / n = 0 := Nat.div_eq_of_lt (by omega)
      have e4 : (m + 1) / n = m / n := by
        rw [e1, Nat.mul_add_div hn, e5]
        omega
      rw [e3, e4]
      simp only [List.countP_cons, List.countP_nil, decide_eq_true_eq]
      split_ifs <;> omega

theorem countDispatchTo_trace (r : List W) (hr : r ≠ []) (hnd : r.Nodup) (p : Nat)
    (cs : List C) (j : Nat) (hj : j < r.length) :
    countDispatchTo (dispatchTrace r p cs) (r.get ⟨j, hj⟩)
      = cs.length / r.length + (if j < cs.length % r.length then 1 else 0) := by
  unfold dispatchTrace
  rw [countDispatchTo_traceFrom]
  have hpos : 0 < r.length := List.length_pos.mpr hr
  have hc : ∀ k ∈ List.range cs.length,
      ((fun k => ringAt r (0 + k) == r.get ⟨j, hj⟩) k = true
        ↔ (fun k => decide (k % r.length = j)) k = true) := by
    intro k _
    simp only [Nat.zero_add, beq_iff_eq, decide_eq_true_eq]
    rw [ringAt_eq_get r hr k, hnd.get_inj_iff]
    simp [Fin.ext_iff]
  rw [List.countP_congr hc]
  exact countP_range_mod r.length j hpos hj cs.length

/-- C5: round-robin dispatch — (1) a `CONNECTION` in `running` with a
non-empty ring rotates the head to the tail and dispatches to the prior
head; (2) in every other situation the connection is enqueued on the
backlog; (3) over a stable ring `r`, connection `k` (1-based) is
dispatched to the worker at position `(k-1) mod |r|` in ring order
(`dispatchTrace`), leaving the ring rotated by the number of
connections; (4) hence over a window of at least `|r|` dispatches each
distinct worker receives within ±1 of `window / |r|` connections. -/
theorem C5_round_robin_dispatch (s : LB W C) (r : List W) (cs : List C) (c0 : C)
    (hs : s.state = Phase.running) (hring : s.ring = r) (hr : r ≠ [])
    (hnd : r.Nodup) (hwin : r.length ≤ cs.length) :
    handleConnection s c0
      = ({ s with ring := r.rotate 1 }, [Output.dispatch (ringAt r 0) s.port c0]) ∧
    (∀ (t : LB W C) (c : C), ¬ (t.state = Phase.running ∧ t.ring ≠ []) →
      handleConnection t c = ({ t with queue := t.queue ++ [c] }, [])) ∧
    runConnections s cs
      = ({ s with ring := r.rotate cs.length }, dispatchTrace r s.port cs) ∧
    (∀ k, ringAt r k = r.get ⟨k % r.length, Nat.mod_lt k (List.length_pos.mpr hr)⟩) ∧
    (∀ j (hj : j < r.length),
      cs.length / r.length
          ≤ countDispatchTo (dispatchTrace r s.port cs) (r.get ⟨j, hj⟩) ∧
      countDispatchTo (dispatchTrace r s.port cs) (r.get ⟨j, hj⟩)
          ≤ cs.length / r.length + 1) := by
  have hring0 : s.ring = r.rotate 0 := by rw [List.rotate_zero]; exact hring
  refine ⟨?_, ?_, ?_, ?_, ?_⟩
  · have h := handleConnection_rot r hr s c0 0 hs hring0
    simpa using h
  · intro t c hcond
    unfold handleConnection
    rw [if_neg ?_]
    intro hc
    exact hcond ⟨hc.1, by simpa [List.length_eq_zero] using hc.2⟩
  · have h := runConnections_rot r hr cs s 0 hs hring0
    simpa [dispatchTrace] using h
  · intro k
    exact ringAt_eq_get r hr k
  · intro j hj
    rw [countDispatchTo_trace r hr hnd s.port cs j hj]
    constructor
    · exact Nat.le_add_right _ _
    · split_ifs <;> omega

/-- Witness for C5: a running balancer on port 5 with ring `[1, 2]`
receiving connections `[10, 20, 30]` dispatches them to workers
1, 2, 1, ends with the ring rotated to `[2, 1]`, and worker 1 receives
2 = ⌈3/2⌉ connections, within ±1 of 3/2. -/
theorem C5_round_robin_dispatch_witness :
    runConnections
        ({ (initLB 5 0 : LB Nat Nat) with state := Phase.running, ring := [1, 2] })
        [10, 20, 30]
      = ({ (initLB 5 0 : LB Nat Nat) with state := Phase.running, ring := [2, 1] },
         [Output.dispatch 1 5 10, Output.dispatch 2 5 20, Output.dispatch 1 5 30]) ∧
    1 ≤ countDispatchTo (dispatchTrace [1, 2] 5 ([10, 20, 30] : List Nat)) 1 ∧
    countDispatchTo (dispatchTrace [1, 2] 5 ([10, 20, 30] : List Nat)) 1 ≤ 2 := by
  have h := C5_round_robin_dispatch
      ({ (initLB 5 0 : LB Nat Nat) with state := Phase.running, ring := [1, 2] })
      [1, 2] [10, 20, 30] 99 rfl rfl (by decide) (by decide) (by decide)
  exact ⟨h.2.2.1, (h.2.2.2.2 0 (by decide)).1, (h.2.2.2.2 0 (by decide)).2⟩

end Nanny
